import Mathlib

/-!
# Verification of the Cronos402 payment / MCP-relay core

Shallow embedding of the payment-authorization engine of this repository
(the `useSignUsdcPermit` hook: `signPermit`, `generateNonce`), the payment
service (`submitUsdcPayment`, `completePayment`), and the MCP proxy route
(`POST`/`GET`/`OPTIONS` handlers, `getValidOrigin`), together with proofs
of the behavioural properties claimed for them.

JavaScript strings are modelled as Lean `String`/`List Char`, JS `bigint`
as `Int`/`Nat`, falsy checks on optional strings by `jsTruthy`, thrown
exceptions by `Except`/explicit outcome types, and browser/runtime
builtins that the code calls (`JSON.parse`, `atob`, `new URL`,
`crypto.randomUUID`, the session lookup, `fetch`) as explicit oracle
parameters of the embedded functions.
-/

namespace Cronos402

set_option maxRecDepth 10000

/-! ## Generic digit-string arithmetic -/

/-- Value of a digit/character list read most-significant first, in a given
base with a given per-character value (used at base 10 for `BigInt("…")` on
decimal strings and at base 16 for decoding hex strings). -/
def digitsVal (base : Nat) (dval : Char → Nat) (cs : List Char) : Nat :=
  cs.foldl (fun a c => a * base + dval c) 0

/-- Decimal value of a digit string, as computed by `BigInt(s)` on a string
of ASCII digits (`BigInt("")` is `0n`, matching the empty fold). -/
def digitsToNat (cs : List Char) : Nat :=
  digitsVal 10 (fun c => c.toNat - 48) cs

/-- Value of an ASCII hex character (lowercase letters, as produced by
`toString(16)`). -/
def hexCharVal (c : Char) : Nat :=
  if c.isDigit then c.toNat - 48
  else if 'a' ≤ c && c ≤ 'f' then c.toNat - 87
  else 0

/-- Big-endian value of a hex character list. -/
def hexDigitsToNat (cs : List Char) : Nat :=
  digitsVal 16 hexCharVal cs

/-- Model of `s.padStart(len, c)`. -/
def padStart (cs : List Char) (len : Nat) (c : Char) : List Char :=
  List.replicate (len - cs.length) c ++ cs

/-! ## `parseUnits` — modelled from viem

`signPermit` computes the atomic token value with the viem function
`parseUnits(amount, 6)`.  viem is an external dependency of the
repository; the definition below follows its source algorithm:
reject strings not matching `^(-?)([0-9]*)\.?([0-9]*)$`; split at the dot
(missing fraction defaults to `"0"`); strip a leading `-`; trim trailing
zeros of the fraction; if the fraction is longer than `decimals`, round
half-up at the `decimals`-th digit (the `Math.round(Number(...))` detour
is modelled by the exact comparison `2 * value ≥ 10 ^ length`, which
agrees with it except for float-pathological ≥17-digit fractions that no
claim exercises; a rounding carry left-pads with zeros back to the
`left.length + 1` width, as the library does); otherwise right-pad the
fraction with zeros; finally
evaluate `BigInt(sign ++ integer ++ fraction)`, modelled arithmetically
by `finalize`. -/

/-- Sign handling during shape checking: the JS conditional
`value.startsWith("-") ? value.slice(1) : value`. -/
def stripNeg (cs : List Char) : List Char :=
  match cs with
  | c :: rest => if c = '-' then rest else cs
  | [] => []

/-- The regex test `^(-?)([0-9]*)\.?([0-9]*)$`. -/
def decimalShape (cs : List Char) : Bool :=
  let body := stripNeg cs
  let rest := body.dropWhile Char.isDigit
  rest = [] || (rest.head? = some '.' && (rest.drop 1).all Char.isDigit)

/-- Model of `value.split(".")`: characters before the first dot, and
`some` of the characters after it when a dot occurs. -/
def splitDot : List Char → List Char × Option (List Char)
  | [] => ([], none)
  | c :: rest =>
    if c = '.' then ([], some rest)
    else
      let p := splitDot rest
      (c :: p.1, p.2)

/-- Trailing-zero trim: `fraction.replace(/(0+)$/, "")`. -/
def trimTrailingZeros (cs : List Char) : List Char :=
  (cs.reverse.dropWhile (· == '0')).reverse

/-- Model of `BigInt(sign ++ integerDigits ++ fractionDigits)` where the
integer part is already a number: the decimal concatenation law. -/
def finalize (neg : Bool) (intVal : Nat) (frac : List Char) : Int :=
  let n : Nat := intVal * 10 ^ frac.length + digitsToNat frac
  if neg then -(n : Int) else (n : Int)

/-- Core of the viem `parseUnits` after shape check, split, sign strip and
trailing-zero trim. -/
def parseUnitsCore (integer fraction : List Char) (neg : Bool) (decimals : Nat) : Int :=
  if decimals = 0 then
    let carry : Bool := fraction ≠ [] && decide (2 * digitsToNat fraction ≥ 10 ^ fraction.length)
    finalize neg (digitsToNat integer + (if carry then 1 else 0)) []
  else if decimals < fraction.length then
    let left := fraction.take (decimals - 1)
    let unit := digitsToNat (List.take 1 (fraction.drop (decimals - 1)))
    let right := fraction.drop decimals
    let rounded := unit + (if 2 * digitsToNat right ≥ 10 ^ right.length then 1 else 0)
    let fraction2 :=
      if rounded > 9 then
        padStart (Nat.toDigits 10 (digitsToNat left + 1) ++ ['0']) (left.length + 1) '0'
      else left ++ Nat.toDigits 10 rounded
    let step :=
      if decimals < fraction2.length then (digitsToNat integer + 1, fraction2.drop 1)
      else (digitsToNat integer, fraction2)
    finalize neg step.1 (step.2.take decimals)
  else
    finalize neg (digitsToNat integer) (fraction ++ List.replicate (decimals - fraction.length) '0')

/-- The viem `parseUnits(value, decimals)`; `none` models the thrown
`InvalidDecimalNumberError`. -/
def parseUnits (value : String) (decimals : Nat) : Option Int :=
  if decimalShape value.data then
    let p := splitDot value.data
    let fraction0 := p.2.getD ['0']
    let neg := p.1.head? == some '-'
    let integer1 := if neg then p.1.drop 1 else p.1
    some (parseUnitsCore integer1 (trimTrailingZeros fraction0) neg decimals)
  else none

/-! ## `generateNonce` — from `useSignUsdcPermit`

`Date.now()` is modelled by the `tsMs` argument and
`crypto.getRandomValues(new Uint8Array(24))` by the `randomBytes`
argument (a list of byte values). -/

/-- Accumulator loop of `BigInt(n).toString(16)` (most-significant digit
first, lowercase hex, `"0"` for zero).  Structural recursion on a fuel
argument — always called with enough fuel — so that the definition
evaluates inside the kernel. -/
def natToHexCore : Nat → Nat → List Char → List Char
  | 0, _, acc => acc
  | fuel + 1, n, acc =>
    let d := Nat.digitChar (n % 16)
    if n / 16 = 0 then d :: acc
    else natToHexCore fuel (n / 16) (d :: acc)

/-- Model of `n.toString(16)` for a nonnegative bigint. -/
def natToHex (n : Nat) : List Char := natToHexCore (n + 1) n []

/-- Hex pair of one random byte: `b.toString(16).padStart(2, "0")`. -/
def byteToHex2 (b : Nat) : List Char := padStart (natToHex b) 2 '0'

/-- Model of `generateNonce`: the 0x-prefixed concatenation of
`timestampHex = timestamp.toString(16).padStart(16, "0")` and the joined
2-character hex forms of the 24 random bytes. -/
def generateNonce (tsMs : Nat) (randomBytes : List Nat) : String :=
  String.mk ('0' :: 'x' ::
    (padStart (natToHex tsMs) 16 '0' ++ (randomBytes.map byteToHex2).flatten))

/-- Lowercase-hex-digit predicate used to state the nonce format. -/
def isHexDigit (c : Char) : Bool := c.isDigit || ('a' ≤ c && c ≤ 'f')

/-- Inverse of the per-byte hex rendering: decode consecutive hex pairs. -/
def hexPairsToBytes : List Char → List Nat
  | a :: b :: rest => (16 * hexCharVal a + hexCharVal b) :: hexPairsToBytes rest
  | _ => []

/-! ## `signPermit` — from `useSignUsdcPermit`

The ambient hook state (connected wallet address from `useAccount`,
chain id from `useChainId`, the `Date.now()` reads and the
`crypto.getRandomValues` draw) is threaded through `PermitEnv`; the merged
call/default config is `PermitConfig`.  The synchronous part of
`signPermit` —
everything up to and including the construction of the
`TransferAuthorization` that is handed to `signTypedDataAsync` — is
embedded as an `Except`: `.error` is a `throw new Error(...)` before any
wallet signature request, `.ok auth` means the signature request for
`auth` is issued.  JS falsy tests (`!connectedAddress`, `!recipient`,
`!amount`) are `jsTruthy` on optional strings. -/

/-- Truthiness of a possibly-absent JS string (`undefined`/`null`/`""` are
falsy). -/
def jsTruthy (o : Option String) : Bool :=
  match o with
  | some s => s ≠ ""
  | none => false

/-- Static map `USDC_ADDRESS`: USDC.e contract per chain id (25 = Cronos
Mainnet, 338 = Cronos Testnet). -/
def USDC_ADDRESS (chainId : Nat) : Option String :=
  if chainId = 25 then some "0xf951eC28187D9E5Ca673Da8FE6757E6f0Be5F77C"
  else if chainId = 338 then some "0xc01efAaF7C5C61bEbFAeb358E1161b537b8bC0e0"
  else none

/-- EIP-3009 `TransferAuthorization` (the unsigned payment intent). -/
structure TransferAuthorization where
  «from» : String
  «to» : String
  value : Int
  validAfter : Nat
  validBefore : Nat
  nonce : String
  deriving Repr, DecidableEq

/-- A `TransferAuthorization` plus the typed-data signature from the
wallet. -/
structure SignedTransferAuthorization where
  auth : TransferAuthorization
  signature : String
  deriving Repr, DecidableEq

/-- Ambient hook state at the time of a `signPermit` call. -/
structure PermitEnv where
  connectedAddress : Option String
  chainId : Nat
  nowMs : Nat
  randomBytes : List Nat
  deriving Repr

/-- The merged call/default configuration seen inside `signPermit`. -/
structure PermitConfig where
  recipient : Option String
  amount : Option String
  validityWindow : Option Nat
  deriving Repr

/-- The `throw new Error(...)` cases of the synchronous validation in
`signPermit`, in source order. -/
inductive SignPermitError where
  | noWalletConnected
  | recipientRequired
  | amountRequired
  | unsupportedNetwork
  | invalidAmount
  deriving Repr, DecidableEq

/-- Synchronous part of `signPermit`: validation, value scaling and
authorization construction.  `.ok auth` is the authorization passed to
`signTypedDataAsync`; every `.error` occurs before that call. -/
def signPermit (env : PermitEnv) (cfg : PermitConfig) :
    Except SignPermitError TransferAuthorization :=
  let validityWindow := cfg.validityWindow.getD 3600
  if ¬ jsTruthy env.connectedAddress then .error .noWalletConnected
  else if ¬ jsTruthy cfg.recipient then .error .recipientRequired
  else if ¬ jsTruthy cfg.amount then .error .amountRequired
  else if (USDC_ADDRESS env.chainId).isNone then .error .unsupportedNetwork
  else
    let now := env.nowMs / 1000
    match parseUnits (cfg.amount.getD "") 6 with
    | none => .error .invalidAmount
    | some value =>
      .ok { «from» := env.connectedAddress.getD ""
            «to» := cfg.recipient.getD ""
            value := value
            validAfter := 0
            validBefore := now + validityWindow
            nonce := generateNonce env.nowMs env.randomBytes }

/-! ## MCP proxy route (`/api/mcp-proxy`)

The Web `Headers` object is modelled as an association list whose keys are
kept lowercase by `hset` (the Web API normalizes header names to
lowercase); `set` replaces, `delete` removes, lookups are
case-insensitive.  `JSON.parse`, `atob` and `new URL` validity are oracle
parameters (`parseJson`, `atob`, `isURL`); `crypto.randomUUID()` is the
`freshSessionId` parameter; the Better-Auth session lookup is the
`hasSession` flag (`session.data` truthy).  The handler is embedded up to
the upstream `fetch`: a `RelayOutcome.respond` is a synthesized response
issued without contacting the upstream, `RelayOutcome.forward` carries the
resolved target URL, the forwarded headers and the forwarded body. -/

/-- Header maps as lowercase-keyed association lists. -/
abbrev Headers := List (String × String)

/-- ASCII lowercasing of one character (JS `toLowerCase` on the ASCII
header names that occur here). -/
def lowerChar (c : Char) : Char :=
  if 'A' ≤ c && c ≤ 'Z' then Char.ofNat (c.toNat + 32) else c

/-- Normalized (lowercase) header name. -/
def hKey (k : String) : String := String.mk (k.data.map lowerChar)

/-- Model of `headers.set(k, v)`. -/
def hset (hs : Headers) (k v : String) : Headers :=
  if hs.any (fun p => p.1 == hKey k) then
    hs.map (fun p => if p.1 == hKey k then (p.1, v) else p)
  else hs ++ [(hKey k, v)]

/-- Model of `headers.get(k)`. -/
def hget (hs : Headers) (k : String) : Option String :=
  (hs.find? (fun p => p.1 == hKey k)).map (·.2)

/-- Model of `headers.has(k)`. -/
def hhas (hs : Headers) (k : String) : Bool := (hget hs k).isSome

/-- Model of `headers.delete(k)`. -/
def hdelete (hs : Headers) (k : String) : Headers :=
  hs.filter (fun p => p.1 != hKey k)

/-- The hop-by-hop names skipped when copying inbound headers. -/
def hopByHop (lower : String) : Bool :=
  lower == "host" || lower == "connection" || lower == "content-length" ||
    lower == "transfer-encoding" || lower == "content-encoding"

/-- The `request.headers.forEach` copy loop of both handlers. -/
def copyHeaders (req : Headers) : Headers :=
  req.foldl (fun acc p => if hopByHop (hKey p.1) then acc else hset acc p.1 p.2) []

/-- JSON values as produced by a successful `JSON.parse`. -/
inductive Json where
  | null
  | bool (b : Bool)
  | num (n : Int)
  | str (s : String)
  | arr (elems : List Json)
  | obj (fields : List (String × Json))

/-- Property access `j?.k` on a parsed JSON value. -/
def jsonField (j : Json) (k : String) : Option Json :=
  match j with
  | .obj fields => (fields.find? (fun p => p.1 == k)).map (·.2)
  | _ => none

/-- JS truthiness of a JSON value. -/
def jsonTruthy (j : Json) : Bool :=
  match j with
  | .null => false
  | .bool b => b
  | .num n => n != 0
  | .str s => s != ""
  | .arr _ => true
  | .obj _ => true

/-- Classification in the POST handler: non-empty body whose JSON parse
succeeds and has method equal to "initialize" (parse failure is caught
and treated as non-initialize). -/
def isInitializeBody (parseJson : String → Option Json) (bodyText : String) : Bool :=
  if bodyText == "" then false
  else
    match parseJson bodyText with
    | some j =>
      match jsonField j "method" with
      | some (.str s) => s == "initialize"
      | _ => false
    | none => false

/-- Resolution of the target-url parameter: try `atob` then URL-validate
the decoded value; on failure of either, fall back to validating the raw
value; `none` is the 400 rejection. -/
def resolveTargetUrl (atob : String → Option String) (isURL : String → Bool)
    (t : String) : Option String :=
  match atob t with
  | some decoded =>
    if isURL decoded then some decoded
    else if isURL t then some t else none
  | none => if isURL t then some t else none

/-- Per-request inputs of a relay handler. -/
structure RelayRequest where
  headers : Headers
  cookie : Option String
  bodyText : String

/-- How a relay handler leaves its pre-forward phase. -/
inductive RelayOutcome where
  | respond (status : Nat) (body : String)
  | forward (target : String) (headers : Headers) (body : String)
  deriving DecidableEq

/-- Explicit Cookie forwarding after the copy loop: set the Cookie header
from the Next headers API when the inbound cookie string is truthy. -/
def cookieStep (req : RelayRequest) : Headers :=
  if jsTruthy req.cookie then hset (copyHeaders req.headers) "Cookie" (req.cookie.getD "")
  else copyHeaders req.headers

/-- Default `Accept` supporting streaming, when unset. -/
def acceptStep (req : RelayRequest) : Headers :=
  if hhas (cookieStep req) "Accept" then cookieStep req
  else hset (cookieStep req) "Accept" "application/json, text/event-stream"

/-- The headers shared by both handlers before the session-id step: copy
loop, explicit `Cookie` forwarding, `Accept` and (POST only, controlled by
`withContentType`) `Content-Type` defaults. -/
def baseForwardHeaders (req : RelayRequest) (withContentType : Bool) : Headers :=
  if withContentType then
    if hhas (acceptStep req) "Content-Type" then acceptStep req
    else hset (acceptStep req) "Content-Type" "application/json"
  else acceptStep req

/-- Forwarded headers of the POST handler: base headers, then session-id
synthesis/stripping according to the initialize classification. -/
def postForwardHeaders (parseJson : String → Option Json) (freshSessionId : String)
    (req : RelayRequest) : Headers :=
  let fh := baseForwardHeaders req true
  let isInit := isInitializeBody parseJson req.bodyText
  if !isInit && !(hhas fh "MCP-Session-Id") && !(hhas fh "mcp-session-id") then
    hset fh "MCP-Session-Id" freshSessionId
  else if isInit then
    hdelete (hdelete fh "MCP-Session-Id") "mcp-session-id"
  else fh

/-- Forwarded headers of the GET handler: base headers, then unconditional
session-id synthesis when missing. -/
def getForwardHeaders (freshSessionId : String) (req : RelayRequest) : Headers :=
  let fh := baseForwardHeaders req false
  if !(hhas fh "MCP-Session-Id") && !(hhas fh "mcp-session-id") then
    hset fh "MCP-Session-Id" freshSessionId
  else fh

/-- The POST handler of `/api/mcp-proxy`, embedded up to the upstream
`fetch`. -/
def postRelay (hasSession : Bool) (targetUrl : Option String)
    (atob : String → Option String) (isURL : String → Bool)
    (parseJson : String → Option Json) (freshSessionId : String)
    (req : RelayRequest) : RelayOutcome :=
  if !hasSession then .respond 401 "Unauthorized"
  else
    match targetUrl with
    | none => .respond 400 "target-url parameter is required"
    | some t =>
      match resolveTargetUrl atob isURL t with
      | none => .respond 400 "Invalid target-url parameter"
      | some mcpUrl =>
        .forward mcpUrl (postForwardHeaders parseJson freshSessionId req) req.bodyText

/-- The GET handler of `/api/mcp-proxy`, embedded up to the upstream
`fetch` (no body, no initialize classification: a missing session id is
always synthesized). -/
def getRelay (hasSession : Bool) (targetUrl : Option String)
    (atob : String → Option String) (isURL : String → Bool)
    (freshSessionId : String) (req : RelayRequest) : RelayOutcome :=
  if !hasSession then .respond 401 "Unauthorized"
  else
    match targetUrl with
    | none => .respond 400 "target-url parameter is required"
    | some t =>
      match resolveTargetUrl atob isURL t with
      | none => .respond 400 "Invalid target-url parameter"
      | some mcpUrl =>
        .forward mcpUrl (getForwardHeaders freshSessionId req) ""

/-! ### CORS origin validation (`getValidOrigin` and the response headers) -/

/-- The production allow-list of `getValidOrigin`. -/
def allowedOrigins : List String :=
  ["https://cronos402.tech", "https://www.cronos402.tech"]

/-- The development localhost/local-IP patterns. -/
def isLocalhostOrigin (s : String) : Bool :=
  s.startsWith "http://localhost:" || s.startsWith "http://127.0.0.1:" ||
    s.startsWith "https://localhost:" || s.startsWith "https://127.0.0.1:"

/-- `getValidOrigin(request)`.  `origin` is the `Origin` header;
`refererOrigin` is `referer ? new URL(referer).origin : null`, precomputed
(a malformed referer would make the source throw instead).  Note the
development branch: the positive and the negative arm of the localhost
test both return `extractedOrigin`. -/
def getValidOrigin (nodeEnv : String) (origin refererOrigin : Option String) :
    Option String :=
  let extractedOrigin := if jsTruthy origin then origin else refererOrigin
  if nodeEnv == "production" then
    if jsTruthy extractedOrigin && allowedOrigins.contains (extractedOrigin.getD "") then
      extractedOrigin
    else none
  else
    if jsTruthy extractedOrigin && isLocalhostOrigin (extractedOrigin.getD "") then
      extractedOrigin
    else extractedOrigin

/-- Response header Access-Control-Allow-Origin, the JS expression
validOrigin or-else "*" (shared by the POST, GET and OPTIONS responses). -/
def corsAllowOrigin (validOrigin : Option String) : String :=
  if jsTruthy validOrigin then validOrigin.getD "" else "*"

/-- Response header Access-Control-Allow-Credentials, "true" exactly when
validOrigin is truthy (shared by the POST, GET and OPTIONS responses). -/
def corsAllowCredentials (validOrigin : Option String) : String :=
  if jsTruthy validOrigin then "true" else "false"

/-! ## Payment service (`submitUsdcPayment`, `completePayment`) -/

/-- `PaymentSubmissionResult`.  The dynamic fields are `Json` values: at
runtime they are whatever the response body contained. -/
structure PaymentSubmissionResult where
  success : Bool
  txHash : Option Json := none
  message : Option Json := none
  network : Option Json := none
  explorerUrl : Option Json := none
  error : Option Json := none
  reason : Option Json := none

/-- The non-success branch of `submitUsdcPayment` (when the response is
not ok): `status` is the response status; `parsedBody` is the result of
`response.json()`, `none` when the body is not parseable JSON — in which
case the catch handler supplies an object with error field "Unknown
error" as `errorData`.  When `errorData` is JSON null (an HTTP body that
is literally the token null), the property access `errorData.error`
throws a TypeError; that throw is still inside the outer try of
`submitUsdcPayment`, whose catch returns the transport-failure result
with error "Network error" and, the TypeError being an Error instance,
with the engine-specific TypeError message as `reason` — passed here as
the `nullDerefMessage` oracle.  On any other `errorData` (property access
on a non-null primitive or array yields undefined, not a throw), the
error of the result is `errorData.error` or-else the string
"HTTP <status>", and its reason is `errorData.reason`. -/
def submitUsdcPaymentHttpError (status : Nat) (parsedBody : Option Json)
    (nullDerefMessage : String) : PaymentSubmissionResult :=
  let errorData := parsedBody.getD (.obj [("error", .str "Unknown error")])
  match errorData with
  | .null =>
    { success := false
      error := some (.str "Network error")
      reason := some (.str nullDerefMessage) }
  | _ =>
    { success := false
      error := some (match jsonField errorData "error" with
        | some v => if jsonTruthy v then v else .str ("HTTP " ++ toString status)
        | none => .str ("HTTP " ++ toString status))
      reason := jsonField errorData "reason" }

/-- Outcome of awaiting a JS call: fulfilled, or rejected with a thrown
value (`isError` is `err instanceof Error`, `message` its message when it
is one). -/
inductive JsOutcome (α : Type) where
  | ok (value : α)
  | thrown (isError : Bool) (message : String)

/-- Message extraction from a thrown value: the message when it is an
Error instance, otherwise "Unknown error". -/
def thrownMessage (isError : Bool) (message : String) : String :=
  if isError then message else "Unknown error"

/-- `completePayment`: a single `try` wraps the awaited `signPermit`
callback and the awaited `submitUsdcPayment` call; any rejection of either
is returned as the tagged failure result, and a fulfilled submission is
returned as-is. -/
def completePayment (signResult : JsOutcome SignedTransferAuthorization)
    (submitResult : SignedTransferAuthorization → JsOutcome PaymentSubmissionResult) :
    PaymentSubmissionResult :=
  match signResult with
  | .thrown isErr msg =>
    { success := false
      error := some (.str "Payment failed")
      reason := some (.str (thrownMessage isErr msg)) }
  | .ok signed =>
    match submitResult signed with
    | .thrown isErr msg =>
      { success := false
        error := some (.str "Payment failed")
        reason := some (.str (thrownMessage isErr msg)) }
    | .ok r => r

/-- Decidable equality of `Except` results, used to evaluate the embedded
functions at concrete inputs. -/
instance {ε α : Type} [DecidableEq ε] [DecidableEq α] : DecidableEq (Except ε α) := fun a b =>
  match a, b with
  | .error e, .error f =>
    if h : e = f then isTrue (by rw [h]) else isFalse (by intro hc; injection hc; contradiction)
  | .ok x, .ok y =>
    if h : x = y then isTrue (by rw [h]) else isFalse (by intro hc; injection hc; contradiction)
  | .error _, .ok _ => isFalse (fun h => Except.noConfusion h)
  | .ok _, .error _ => isFalse (fun h => Except.noConfusion h)

/-! ## Digit-string lemmas -/

theorem digitsVal_append (base : Nat) (dval : Char → Nat) (a b : List Char) :
    digitsVal base dval (a ++ b) =
      digitsVal base dval a * base ^ b.length + digitsVal base dval b := by
  have shift : ∀ (l : List Char) (s : Nat),
      l.foldl (fun a c => a * base + dval c) s =
        s * base ^ l.length + l.foldl (fun a c => a * base + dval c) 0 := by
    intro l
    induction l with
    | nil => intro s; simp
    | cons c t ih =>
      intro s
      simp only [List.foldl_cons, List.length_cons]
      rw [ih (s * base + dval c), ih (0 * base + dval c)]
      ring
  unfold digitsVal
  rw [List.foldl_append, shift b]

theorem digitsVal_replicate_zero (base : Nat) (dval : Char → Nat) (c : Char)
    (hc : dval c = 0) (j : Nat) :
    digitsVal base dval (List.replicate j c) = 0 := by
  induction j with
  | zero => rfl
  | succ n ih =>
    unfold digitsVal at *
    simp only [List.replicate_succ, List.foldl_cons, hc]
    simpa using ih

theorem digitsVal_leadZeros (base : Nat) (dval : Char → Nat) (c : Char)
    (hc : dval c = 0) (j : Nat) (cs : List Char) :
    digitsVal base dval (List.replicate j c ++ cs) = digitsVal base dval cs := by
  induction j with
  | zero => rfl
  | succ n ih =>
    unfold digitsVal at *
    simp only [List.replicate_succ, List.cons_append, List.foldl_cons, hc]
    simpa using ih

/-! ### Exactness of `parseUnits` on amounts within the token precision -/

theorem isDigit_ne_dot {c : Char} (h : c.isDigit) : c ≠ '.' := by
  intro h'; subst h'; simp [Char.isDigit] at h

theorem isDigit_ne_dash {c : Char} (h : c.isDigit) : c ≠ '-' := by
  intro h'; subst h'; simp [Char.isDigit] at h

theorem dropWhile_digits_append (i f : List Char) (hi : i.all Char.isDigit) :
    (i ++ '.' :: f).dropWhile Char.isDigit = '.' :: f := by
  induction i with
  | nil => simp [List.dropWhile]
  | cons c t ih =>
    simp only [List.all_cons, Bool.and_eq_true] at hi
    simp [List.dropWhile, hi.1, ih hi.2]

theorem splitDot_digits_append (i f : List Char) (hi : i.all Char.isDigit) :
    splitDot (i ++ '.' :: f) = (i, some f) := by
  induction i with
  | nil => simp [splitDot]
  | cons c t ih =>
    simp only [List.all_cons, Bool.and_eq_true] at hi
    simp [splitDot, isDigit_ne_dot hi.1, ih hi.2]

theorem stripNeg_digits_append (i f : List Char) (hi : i.all Char.isDigit) :
    stripNeg (i ++ '.' :: f) = i ++ '.' :: f := by
  cases i with
  | nil => simp [stripNeg]
  | cons c t =>
    simp only [List.all_cons, Bool.and_eq_true] at hi
    simp [stripNeg, isDigit_ne_dash hi.1]

theorem trimTrailingZeros_length_le (f : List Char) :
    (trimTrailingZeros f).length ≤ f.length := by
  have h := (List.dropWhile_sublist (p := (· == '0')) (l := f.reverse)).length_le
  simpa [trimTrailingZeros] using h

theorem trimTrailingZeros_decomp (f : List Char) :
    f = trimTrailingZeros f ++
      List.replicate (f.length - (trimTrailingZeros f).length) '0' := by
  obtain ⟨n, htake⟩ : ∃ n, f.reverse.takeWhile (· == '0') = List.replicate n '0' :=
    ⟨(f.reverse.takeWhile (· == '0')).length,
      List.eq_replicate_of_mem (fun b hb => by simpa using List.mem_takeWhile_imp hb)⟩
  have hsplit := List.takeWhile_append_dropWhile (p := (· == '0')) (l := f.reverse)
  have hlen : f.length = (trimTrailingZeros f).length + n := by
    have hc := congrArg List.length hsplit
    simp only [List.length_append, List.length_reverse, htake, List.length_replicate] at hc
    have ht : (trimTrailingZeros f).length = (f.reverse.dropWhile (· == '0')).length := by
      simp [trimTrailingZeros]
    omega
  have hdec : f = trimTrailingZeros f ++ List.replicate n '0' := by
    conv_lhs => rw [← f.reverse_reverse, ← hsplit]
    rw [List.reverse_append, htake, List.reverse_replicate]
    rfl
  rw [show f.length - (trimTrailingZeros f).length = n by omega]
  exact hdec

theorem digitsToNat_append_replicate_zero (a : List Char) (j : Nat) :
    digitsToNat (a ++ List.replicate j '0') = digitsToNat a * 10 ^ j := by
  unfold digitsToNat
  rw [digitsVal_append, digitsVal_replicate_zero 10 _ '0' (by decide) j,
    List.length_replicate]
  omega

/-- Trimming trailing zeros of the fraction preserves the scaled value. -/
theorem trimTrailingZeros_scaled (f : List Char) (k : Nat) (hk : f.length ≤ k) :
    digitsToNat (trimTrailingZeros f) * 10 ^ (k - (trimTrailingZeros f).length) =
      digitsToNat f * 10 ^ (k - f.length) := by
  set t := trimTrailingZeros f with ht
  have hdec := trimTrailingZeros_decomp f
  have hle := trimTrailingZeros_length_le f
  rw [← ht] at hdec hle
  have hval : digitsToNat f = digitsToNat t * 10 ^ (f.length - t.length) := by
    conv_lhs => rw [hdec]
    exact digitsToNat_append_replicate_zero t (f.length - t.length)
  rw [hval, Nat.mul_assoc, ← pow_add]
  congr 2
  omega

theorem parseUnits_exact (i f : List Char) (hi : i.all Char.isDigit)
    (hf : f.all Char.isDigit) (hlen : f.length ≤ 6) :
    parseUnits (String.mk (i ++ '.' :: f)) 6 =
      some ((digitsToNat i * 10 ^ 6 + digitsToNat f * 10 ^ (6 - f.length) : Nat) : Int) := by
  have hshape : decimalShape (i ++ '.' :: f) = true := by
    simp only [decimalShape, stripNeg_digits_append i f hi, dropWhile_digits_append i f hi]
    simp [hf]
  have hnegb : ((i : List Char).head? == some '-') = false := by
    cases i with
    | nil => simp
    | cons c t =>
      simp only [List.all_cons, Bool.and_eq_true] at hi
      simp [isDigit_ne_dash hi.1]
  unfold parseUnits
  rw [show (String.mk (i ++ '.' :: f)).data = i ++ '.' :: f from rfl]
  simp only [hshape, if_true, splitDot_digits_append i f hi, Option.getD_some, hnegb,
    Bool.false_eq_true, if_false]
  set t := trimTrailingZeros f with ht
  have htle : t.length ≤ f.length := trimTrailingZeros_length_le f
  have ht6 : t.length ≤ 6 := le_trans htle hlen
  unfold parseUnitsCore
  rw [if_neg (by omega : ¬ (6 : Nat) = 0), if_neg (by omega : ¬ 6 < t.length)]
  unfold finalize
  simp only [Bool.false_eq_true, if_false, Option.some.injEq]
  rw [List.length_append, List.length_replicate,
    digitsToNat_append_replicate_zero t (6 - t.length)]
  rw [show t.length + (6 - t.length) = 6 by omega]
  rw [trimTrailingZeros_scaled f 6 hlen]

theorem hexCharVal_digitChar : ∀ d < 16, hexCharVal (Nat.digitChar d) = d := by decide

theorem isHexDigit_digitChar : ∀ d < 16, isHexDigit (Nat.digitChar d) = true := by decide

theorem natToHexCore_spec (n : Nat) : ∀ (fuel : Nat) (acc : List Char), n < fuel →
    natToHexCore fuel n acc = natToHex n ++ acc := by
  induction n using Nat.strong_induction_on with
  | _ n ih =>
    intro fuel acc hfuel
    match fuel with
    | 0 => omega
    | f + 1 =>
      by_cases h : n / 16 = 0
      · simp [natToHexCore, h, natToHex]
      · have hlt : n / 16 < n := by omega
        rw [show natToHexCore (f + 1) n acc =
            natToHexCore f (n / 16) (Nat.digitChar (n % 16) :: acc) from by
          simp [natToHexCore, h]]
        rw [show natToHex n =
            natToHexCore n (n / 16) [Nat.digitChar (n % 16)] from by
          simp [natToHex, natToHexCore, h]]
        rw [ih (n / 16) hlt f _ (by omega), ih (n / 16) hlt n _ (by omega)]
        simp

/-- One-step unfolding of `natToHex` without the fuel plumbing. -/
theorem natToHex_eq (n : Nat) :
    natToHex n = if n / 16 = 0 then [Nat.digitChar (n % 16)]
      else natToHex (n / 16) ++ [Nat.digitChar (n % 16)] := by
  by_cases h : n / 16 = 0
  · rw [if_pos h]
    simp [natToHex, natToHexCore, h]
  · rw [if_neg h]
    rw [show natToHex n =
        natToHexCore n (n / 16) [Nat.digitChar (n % 16)] from by
      simp [natToHex, natToHexCore, h]]
    exact natToHexCore_spec (n / 16) n [Nat.digitChar (n % 16)] (by omega)

theorem hexDigitsToNat_cons (c : Char) (cs : List Char) :
    hexDigitsToNat (cs ++ [c]) = 16 * hexDigitsToNat cs + hexCharVal c := by
  unfold hexDigitsToNat
  rw [digitsVal_append]
  simp [digitsVal]
  ring

theorem hexDigitsToNat_natToHex (n : Nat) : hexDigitsToNat (natToHex n) = n := by
  induction n using Nat.strong_induction_on with
  | _ n ih =>
    rw [natToHex_eq]
    have hmod : n % 16 < 16 := Nat.mod_lt _ (by omega)
    by_cases h : n / 16 = 0
    · rw [if_pos h]
      have := hexCharVal_digitChar (n % 16) hmod
      unfold hexDigitsToNat digitsVal
      simp only [List.foldl_cons, List.foldl_nil, Nat.zero_mul, Nat.zero_add]
      omega
    · have hlt : n / 16 < n := by omega
      rw [if_neg h, hexDigitsToNat_cons, hexCharVal_digitChar (n % 16) hmod,
        ih (n / 16) hlt]
      omega

theorem natToHex_length_le (n : Nat) : ∀ k : Nat, 0 < k → n < 16 ^ k →
    (natToHex n).length ≤ k := by
  induction n using Nat.strong_induction_on with
  | _ n ih =>
    intro k hk hn
    rw [natToHex_eq]
    by_cases h : n / 16 = 0
    · rw [if_pos h]
      simp only [List.length_cons, List.length_nil]
      omega
    · have hlt : n / 16 < n := by omega
      have hk2 : 2 ≤ k := by
        by_contra hc
        have hk1 : k = 1 := by omega
        subst hk1
        simp only [pow_one] at hn
        omega
      rw [if_neg h, List.length_append, List.length_singleton]
      have hdiv : n / 16 < 16 ^ (k - 1) := by
        have h16 : (16 : Nat) ^ k = 16 ^ (k - 1) * 16 := by
          rw [← pow_succ]
          congr 1
          omega
        rw [Nat.div_lt_iff_lt_mul (by omega : (0:Nat) < 16)]
        omega
      have := ih (n / 16) hlt (k - 1) (by omega) hdiv
      omega

theorem natToHex_all_hex (n : Nat) : (natToHex n).all isHexDigit = true := by
  induction n using Nat.strong_induction_on with
  | _ n ih =>
    rw [natToHex_eq]
    have hd : isHexDigit (Nat.digitChar (n % 16)) = true :=
      isHexDigit_digitChar (n % 16) (Nat.mod_lt _ (by omega))
    by_cases h : n / 16 = 0
    · rw [if_pos h]
      simp [hd]
    · have hlt : n / 16 < n := by omega
      rw [if_neg h]
      simp [List.all_append, hd, ih (n / 16) hlt]

theorem byteToHex2_spec (b : Nat) (hb : b < 256) :
    (byteToHex2 b).length = 2 ∧ hexPairsToBytes (byteToHex2 b) = [b] ∧
      (byteToHex2 b).all isHexDigit = true := by
  by_cases h : b < 16
  · have hb16 : b / 16 = 0 := by omega
    have hbm : b % 16 = b := by omega
    have hx : byteToHex2 b = ['0', Nat.digitChar b] := by
      unfold byteToHex2 padStart
      rw [natToHex_eq, if_pos hb16, hbm]
      simp [List.replicate]
    refine ⟨by simp [hx], ?_, ?_⟩
    · rw [hx]
      unfold hexPairsToBytes
      rw [hexCharVal_digitChar b (by omega), show hexCharVal '0' = 0 from by decide]
      norm_num
      rfl
    · rw [hx]
      simp [List.all_cons, isHexDigit_digitChar b (by omega),
        show isHexDigit '0' = true from by decide]
  · have h1 : ¬ b / 16 = 0 := by omega
    have h2 : (b / 16) / 16 = 0 := by omega
    have h3 : b / 16 % 16 = b / 16 := by omega
    have hx : byteToHex2 b = [Nat.digitChar (b / 16), Nat.digitChar (b % 16)] := by
      unfold byteToHex2 padStart
      rw [natToHex_eq, if_neg h1, natToHex_eq, if_pos h2, h3]
      simp
    refine ⟨by simp [hx], ?_, ?_⟩
    · rw [hx]
      unfold hexPairsToBytes
      rw [hexCharVal_digitChar (b / 16) (by omega),
        hexCharVal_digitChar (b % 16) (by omega)]
      congr 1
      omega
    · rw [hx]
      simp [List.all_cons, isHexDigit_digitChar (b / 16) (by omega),
        isHexDigit_digitChar (b % 16) (by omega)]

theorem hexPairsToBytes_map_flatten (r : List Nat) (hb : ∀ b ∈ r, b < 256) :
    hexPairsToBytes ((r.map byteToHex2).flatten) = r := by
  induction r with
  | nil => rfl
  | cons b rest ih =>
    have hbb : b < 256 := hb b (by simp)
    obtain ⟨hlen2, hdec, _⟩ := byteToHex2_spec b hbb
    obtain ⟨a, c, hac⟩ := List.length_eq_two.mp hlen2
    have hval : 16 * hexCharVal a + hexCharVal c = b := by
      have hx : hexPairsToBytes [a, c] = [b] := by rw [← hac]; exact hdec
      unfold hexPairsToBytes at hx
      exact ((by simpa using hx) :
        16 * hexCharVal a + hexCharVal c = b ∧ hexPairsToBytes ([] : List Char) = []).1
    simp only [List.map_cons, List.flatten_cons]
    rw [hac]
    show hexPairsToBytes (a :: c :: (rest.map byteToHex2).flatten) = b :: rest
    unfold hexPairsToBytes
    rw [ih (fun x hx => hb x (by simp [hx])), hval]

theorem map_flatten_byteToHex2_length (r : List Nat) (hb : ∀ b ∈ r, b < 256) :
    ((r.map byteToHex2).flatten).length = 2 * r.length := by
  induction r with
  | nil => rfl
  | cons b rest ih =>
    obtain ⟨hlen2, _, _⟩ := byteToHex2_spec b (hb b (by simp))
    simp only [List.map_cons, List.flatten_cons, List.length_append, List.length_cons, hlen2,
      ih (fun x hx => hb x (by simp [hx]))]
    ring

theorem map_flatten_byteToHex2_all_hex (r : List Nat) (hb : ∀ b ∈ r, b < 256) :
    ((r.map byteToHex2).flatten).all isHexDigit = true := by
  induction r with
  | nil => rfl
  | cons b rest ih =>
    obtain ⟨_, _, hhex⟩ := byteToHex2_spec b (hb b (by simp))
    simp only [List.map_cons, List.flatten_cons, List.all_append, hhex,
      ih (fun x hx => hb x (by simp [hx])), Bool.and_self]

theorem padStart_hex_length (tsMs : Nat) (hts : tsMs < 2 ^ 64) :
    (padStart (natToHex tsMs) 16 '0').length = 16 := by
  have h64 : tsMs < 16 ^ 16 := by
    have h : (16:Nat) ^ 16 = 2 ^ 64 := by norm_num
    omega
  have hle := natToHex_length_le tsMs 16 (by omega) h64
  unfold padStart
  rw [List.length_append, List.length_replicate]
  omega

theorem padStart_hex_all (tsMs : Nat) :
    (padStart (natToHex tsMs) 16 '0').all isHexDigit = true := by
  unfold padStart
  rw [List.all_append]
  have hz : (List.replicate (16 - (natToHex tsMs).length) '0').all isHexDigit = true := by
    simp only [List.all_eq_true]
    intro c hc
    rw [List.eq_of_mem_replicate hc]
    decide
  rw [hz, natToHex_all_hex tsMs]
  rfl

theorem padStart_hex_val (tsMs : Nat) :
    hexDigitsToNat (padStart (natToHex tsMs) 16 '0') = tsMs := by
  unfold padStart
  unfold hexDigitsToNat
  rw [digitsVal_leadZeros 16 hexCharVal '0' (by decide)]
  exact hexDigitsToNat_natToHex tsMs

/-! ## Header-map lemmas -/

theorem hset_key_mem (hs : Headers) (k v : String) :
    ∀ q ∈ hset hs k v, q.1 = hKey k ∨ ∃ p ∈ hs, q.1 = p.1 := by
  intro q hq
  unfold hset at hq
  by_cases hc : hs.any (fun p => p.1 == hKey k) = true
  · rw [if_pos hc] at hq
    obtain ⟨p, hp, hrw⟩ := List.mem_map.mp hq
    right
    refine ⟨p, hp, ?_⟩
    by_cases hpk : (p.1 == hKey k) = true
    · rw [if_pos hpk] at hrw
      rw [← hrw]
    · rw [if_neg hpk] at hrw
      rw [← hrw]
  · rw [if_neg hc] at hq
    rcases List.mem_append.mp hq with h | h
    · right
      exact ⟨q, h, rfl⟩
    · left
      have hq' : q = (hKey k, v) := by simpa using h
      rw [hq']

theorem no_key_hset {κ : String} (hs : Headers) (k v : String) (hκ : hKey k ≠ κ)
    (h : ∀ q ∈ hs, q.1 ≠ κ) : ∀ q ∈ hset hs k v, q.1 ≠ κ := by
  intro q hq
  rcases hset_key_mem hs k v q hq with h1 | ⟨p, hp, h2⟩
  · rw [h1]
    exact hκ
  · rw [h2]
    exact h p hp

theorem copyHeaders_no_key (req : Headers) (κ : String)
    (h : ∀ p ∈ req, hKey p.1 ≠ κ) : ∀ q ∈ copyHeaders req, q.1 ≠ κ := by
  suffices haux : ∀ l acc : Headers, (∀ p ∈ l, hKey p.1 ≠ κ) → (∀ q ∈ acc, q.1 ≠ κ) →
      ∀ q ∈ l.foldl (fun acc p => if hopByHop (hKey p.1) then acc else hset acc p.1 p.2) acc,
        q.1 ≠ κ by
    exact fun q hq => haux req [] h (by simp) q hq
  intro l
  induction l with
  | nil =>
    intro acc _ hacc q hq
    exact hacc q (by simpa using hq)
  | cons p rest ih =>
    intro acc hl hacc q hq
    simp only [List.foldl_cons] at hq
    have hnew : ∀ x ∈ (if hopByHop (hKey p.1) = true then acc else hset acc p.1 p.2),
        x.1 ≠ κ := by
      by_cases hbh : hopByHop (hKey p.1) = true
      · rw [if_pos hbh]
        exact hacc
      · rw [if_neg hbh]
        exact no_key_hset acc p.1 p.2 (hl p (by simp)) hacc
    exact ih _ (fun x hx => hl x (by simp [hx])) hnew q hq

theorem no_key_hget (hs : Headers) (k κ : String) (hk : hKey k = κ)
    (h : ∀ q ∈ hs, q.1 ≠ κ) : hget hs k = none := by
  unfold hget
  have hfind : hs.find? (fun p => p.1 == hKey k) = none := by
    apply List.find?_eq_none.mpr
    intro p hp
    simp only [beq_iff_eq, hk]
    exact h p hp
  rw [hfind]
  rfl

theorem hset_filter_absent (hs : Headers) (k v : String)
    (h : ∀ q ∈ hs, q.1 ≠ hKey k) :
    (hset hs k v).filter (fun q => q.1 == hKey k) = [(hKey k, v)] := by
  unfold hset
  have hany : hs.any (fun p => p.1 == hKey k) = false := by
    rw [List.any_eq_false]
    intro p hp
    simp only [beq_iff_eq]
    exact h p hp
  rw [if_neg (by simp [hany])]
  rw [List.filter_append]
  have h1 : hs.filter (fun q => q.1 == hKey k) = [] := by
    rw [List.filter_eq_nil_iff]
    intro p hp
    simp only [beq_iff_eq]
    exact h p hp
  rw [h1]
  simp

theorem hdelete_filter_nil (hs : Headers) (k κ : String) (hk : hKey k = κ) :
    (hdelete hs k).filter (fun q => q.1 == κ) = [] := by
  rw [List.filter_eq_nil_iff]
  intro q hq
  unfold hdelete at hq
  have hmem := List.mem_filter.mp hq
  have hne : (q.1 != hKey k) = true := hmem.2
  simp only [bne_iff_ne, ne_eq, hk] at hne
  simp only [beq_iff_eq]
  exact hne

theorem cookieStep_no_key (req : RelayRequest) (κ : String) (hκ : hKey "Cookie" ≠ κ)
    (h : ∀ p ∈ req.headers, hKey p.1 ≠ κ) : ∀ q ∈ cookieStep req, q.1 ≠ κ := by
  unfold cookieStep
  have h0 := copyHeaders_no_key req.headers κ h
  by_cases hc : jsTruthy req.cookie = true
  · rw [if_pos hc]
    exact no_key_hset _ _ _ hκ h0
  · rw [if_neg hc]
    exact h0

theorem acceptStep_no_key (req : RelayRequest) (κ : String) (hκ1 : hKey "Cookie" ≠ κ)
    (hκ2 : hKey "Accept" ≠ κ)
    (h : ∀ p ∈ req.headers, hKey p.1 ≠ κ) : ∀ q ∈ acceptStep req, q.1 ≠ κ := by
  unfold acceptStep
  have h0 := cookieStep_no_key req κ hκ1 h
  by_cases hc : hhas (cookieStep req) "Accept" = true
  · rw [if_pos hc]
    exact h0
  · rw [if_neg hc]
    exact no_key_hset _ _ _ hκ2 h0

theorem baseForwardHeaders_no_sessionKey (req : RelayRequest) (wct : Bool)
    (h : ∀ p ∈ req.headers, hKey p.1 ≠ "mcp-session-id") :
    ∀ q ∈ baseForwardHeaders req wct, q.1 ≠ "mcp-session-id" := by
  unfold baseForwardHeaders
  have h0 := acceptStep_no_key req "mcp-session-id" (by decide) (by decide) h
  cases wct with
  | false =>
    simpa using h0
  | true =>
    simp only [if_pos rfl]
    by_cases hc : hhas (acceptStep req) "Content-Type" = true
    · rw [if_pos hc]
      exact h0
    · rw [if_neg hc]
      exact no_key_hset _ _ _ (by decide) h0

/-- Session-id discipline of the forwarded POST headers: an
initialize body leaves no session-id header (client-supplied ones are
stripped, none is synthesized); a non-initialize body with no inbound
session-id header gets exactly the one fresh id. -/
theorem postForwardHeaders_filter (parseJson : String → Option Json)
    (fresh : String) (req : RelayRequest) :
    (isInitializeBody parseJson req.bodyText = true →
      (postForwardHeaders parseJson fresh req).filter
        (fun q => q.1 == "mcp-session-id") = []) ∧
    (isInitializeBody parseJson req.bodyText = false →
      (∀ p ∈ req.headers, hKey p.1 ≠ "mcp-session-id") →
      (postForwardHeaders parseJson fresh req).filter
        (fun q => q.1 == "mcp-session-id") = [("mcp-session-id", fresh)]) := by
  constructor
  · intro hinit
    unfold postForwardHeaders
    rw [hinit]
    simp only [Bool.not_true, Bool.false_and, Bool.false_eq_true, if_false, if_pos rfl]
    exact hdelete_filter_nil _ "mcp-session-id" "mcp-session-id" (by decide)
  · intro hinit hreq
    have hbase := baseForwardHeaders_no_sessionKey req true hreq
    have hk1 : hKey "MCP-Session-Id" = "mcp-session-id" := by decide
    have hh1 : hhas (baseForwardHeaders req true) "MCP-Session-Id" = false := by
      unfold hhas
      rw [no_key_hget _ _ _ hk1 hbase]
      rfl
    have hh2 : hhas (baseForwardHeaders req true) "mcp-session-id" = false := by
      unfold hhas
      rw [no_key_hget _ _ _ (by decide) hbase]
      rfl
    unfold postForwardHeaders
    rw [hinit]
    simp only [Bool.not_false, Bool.true_and, hh1, hh2, Bool.and_self, if_pos rfl]
    have habs : ∀ q ∈ baseForwardHeaders req true, q.1 ≠ hKey "MCP-Session-Id" := by
      intro q hq
      rw [hk1]
      exact hbase q hq
    have := hset_filter_absent (baseForwardHeaders req true) "MCP-Session-Id" fresh habs
    rw [hk1] at this
    exact this

/-! ## Claim theorems: MCP proxy -/

/-- C2: whenever the POST relay forwards a request, an `initialize`
JSON-RPC body results in no `MCP-Session-Id`/`mcp-session-id` header on
the forwarded request (client-supplied ones stripped, none synthesized),
and a non-initialize body whose inbound request carries no session-id
header results in exactly one session-id header, the freshly synthesized
one. -/
theorem postRelay_session_id_policy (hasSession : Bool) (targetUrl : Option String)
    (atob : String → Option String) (isURL : String → Bool)
    (parseJson : String → Option Json) (fresh : String) (req : RelayRequest)
    (t : String) (fh : Headers) (b : String)
    (hfw : postRelay hasSession targetUrl atob isURL parseJson fresh req =
      .forward t fh b) :
    (isInitializeBody parseJson req.bodyText = true →
      fh.filter (fun q => q.1 == "mcp-session-id") = []) ∧
    (isInitializeBody parseJson req.bodyText = false →
      (∀ p ∈ req.headers, hKey p.1 ≠ "mcp-session-id") →
      fh.filter (fun q => q.1 == "mcp-session-id") = [("mcp-session-id", fresh)]) := by
  have hfh : fh = postForwardHeaders parseJson fresh req := by
    unfold postRelay at hfw
    split at hfw
    · exact absurd hfw (by simp)
    · split at hfw
      · exact absurd hfw (by simp)
      · split at hfw
        · exact absurd hfw (by simp)
        · simp only [RelayOutcome.forward.injEq] at hfw
          exact hfw.2.1.symm
  rw [hfh]
  exact postForwardHeaders_filter parseJson fresh req

/-- C2 witness: a concrete authenticated non-initialize POST with no
inbound headers gets exactly the fresh session id. -/
theorem postRelay_session_id_policy_witness :
    (postRelay true (some "http://u") (fun _ => none) (fun _ => true) (fun _ => none)
        "uuid-1" ⟨[], none, ""⟩ = .forward "http://u"
          [("accept", "application/json, text/event-stream"),
           ("content-type", "application/json"),
           ("mcp-session-id", "uuid-1")] "") ∧
    [("accept", "application/json, text/event-stream"),
     ("content-type", "application/json"),
     ("mcp-session-id", "uuid-1")].filter (fun q => q.1 == "mcp-session-id") =
      [("mcp-session-id", "uuid-1")] := by
  constructor
  · decide
  · exact (postRelay_session_id_policy true (some "http://u") (fun _ => none) (fun _ => true)
      (fun _ => none) "uuid-1" ⟨[], none, ""⟩ "http://u"
      [("accept", "application/json, text/event-stream"),
       ("content-type", "application/json"), ("mcp-session-id", "uuid-1")] ""
      (by decide)).2 (by decide) (by simp)

/-- C7: a relay request (POST or GET) whose cookies do not resolve to a
valid caller session is answered 401 directly, for any `target-url`; the
outcome is a synthesized response, never a forward to the upstream. -/
theorem relay_unauthenticated_401 (targetUrl : Option String)
    (atob : String → Option String) (isURL : String → Bool)
    (parseJson : String → Option Json) (fresh : String) (req : RelayRequest) :
    postRelay false targetUrl atob isURL parseJson fresh req =
      .respond 401 "Unauthorized" ∧
    getRelay false targetUrl atob isURL fresh req = .respond 401 "Unauthorized" := by
  constructor <;> rfl

/-- C8: for authenticated requests, a missing `target-url` yields 400; a
`target-url` that is neither base64-of-a-valid-URL nor itself a valid URL
yields 400 (with the precise failure characterization); and when base64
decoding or validation of the decoded value fails but the raw parameter is
a valid URL, the raw value becomes the forwarding target. -/
theorem relay_target_url_rules (atob : String → Option String) (isURL : String → Bool)
    (parseJson : String → Option Json) (fresh : String) (req : RelayRequest) :
    (postRelay true none atob isURL parseJson fresh req =
        .respond 400 "target-url parameter is required" ∧
      getRelay true none atob isURL fresh req =
        .respond 400 "target-url parameter is required") ∧
    (∀ t, resolveTargetUrl atob isURL t = none →
      postRelay true (some t) atob isURL parseJson fresh req =
          .respond 400 "Invalid target-url parameter" ∧
        getRelay true (some t) atob isURL fresh req =
          .respond 400 "Invalid target-url parameter") ∧
    (∀ t, resolveTargetUrl atob isURL t = none ↔
      ((∀ d, atob t = some d → isURL d = false) ∧ isURL t = false)) ∧
    (∀ t, (atob t = none ∨ (∃ d, atob t = some d ∧ isURL d = false)) → isURL t = true →
      postRelay true (some t) atob isURL parseJson fresh req =
        .forward t (postForwardHeaders parseJson fresh req) req.bodyText) := by
  refine ⟨⟨rfl, rfl⟩, ?_, ?_, ?_⟩
  · intro t ht
    constructor
    · simp [postRelay, ht]
    · simp [getRelay, ht]
  · intro t
    unfold resolveTargetUrl
    cases hab : atob t with
    | none => cases hurl : isURL t <;> simp [hurl]
    | some d =>
      cases hd : isURL d with
      | false => cases hurl : isURL t <;> simp [hd, hurl]
      | true => simp [hd]
  · intro t hfail hurl
    have hres : resolveTargetUrl atob isURL t = some t := by
      unfold resolveTargetUrl
      rcases hfail with hab | ⟨d, hab, hd⟩
      · rw [hab]
        simp [hurl]
      · rw [hab]
        simp [hd, hurl]
    simp [postRelay, hres]

/-- C8 witness: a raw plain-URL `target-url` whose base64 decode fails is
used as the forwarding target. -/
theorem relay_target_url_rules_witness :
    postRelay true (some "http://ok") (fun _ => none) (fun s => s == "http://ok")
        (fun _ => none) "uuid-3" ⟨[], none, "ping"⟩ =
      .forward "http://ok"
        (postForwardHeaders (fun _ => none) "uuid-3" ⟨[], none, "ping"⟩) "ping" :=
  (relay_target_url_rules (fun _ => none) (fun s => s == "http://ok") (fun _ => none)
    "uuid-3" ⟨[], none, "ping"⟩).2.2.2 "http://ok" (Or.inl rfl) (by decide)

/-- C9 (code evaluation at the failing input): in development mode, a
request carrying the literal header `Origin: *` is echoed by
`getValidOrigin` (the dev branch returns any extracted origin), so the
relay response carries `Access-Control-Allow-Origin: *` together with
`Access-Control-Allow-Credentials: true` — wildcard origin with
credentials enabled, contradicting the claimed invariant. -/
theorem cors_wildcard_credentials_bug :
    getValidOrigin "development" (some "*") none = some "*" ∧
    corsAllowOrigin (getValidOrigin "development" (some "*") none) = "*" ∧
    corsAllowCredentials (getValidOrigin "development" (some "*") none) = "true" := by
  exact ⟨by decide, by decide, by decide⟩

/-! ## Claim theorems: authorization engine -/

/-- Characterization of the successful `signPermit` runs: exactly when the
four truthiness/support checks pass and the amount parses, and then the
authorization is the record built at line 200 of the hook. -/
theorem signPermit_ok_iff (env : PermitEnv) (cfg : PermitConfig)
    (auth : TransferAuthorization) :
    signPermit env cfg = .ok auth ↔
      (jsTruthy env.connectedAddress = true ∧ jsTruthy cfg.recipient = true ∧
       jsTruthy cfg.amount = true ∧ (USDC_ADDRESS env.chainId).isNone = false ∧
       ∃ v, parseUnits (cfg.amount.getD "") 6 = some v ∧
         auth = { «from» := env.connectedAddress.getD ""
                  «to» := cfg.recipient.getD ""
                  value := v
                  validAfter := 0
                  validBefore := env.nowMs / 1000 + cfg.validityWindow.getD 3600
                  nonce := generateNonce env.nowMs env.randomBytes }) := by
  unfold signPermit
  by_cases h1 : jsTruthy env.connectedAddress = true
  case neg => simp [h1]
  by_cases h2 : jsTruthy cfg.recipient = true
  case neg => simp [h1, h2]
  by_cases h3 : jsTruthy cfg.amount = true
  case neg => simp [h1, h2, h3]
  by_cases h4 : (USDC_ADDRESS env.chainId).isNone = true
  case pos => simp [h1, h2, h3, h4]
  cases hp : parseUnits (cfg.amount.getD "") 6 with
  | none => simp [h1, h2, h3, h4, hp]
  | some v => simp [h1, h2, h3, h4, hp, eq_comm]

/-- C1: every authorization produced by `signPermit` has `from` equal to
the connected wallet address and `value` equal to `parseUnits(amount, 6)`;
that scaling is exact integer arithmetic for any decimal amount within the
6 token decimals, and in particular amount "0.01" yields atomic value
10000. -/
theorem signPermit_from_and_value (env : PermitEnv) (cfg : PermitConfig)
    (auth : TransferAuthorization) (h : signPermit env cfg = .ok auth) :
    env.connectedAddress = some auth.«from» ∧
    parseUnits (cfg.amount.getD "") 6 = some auth.value ∧
    (∀ i f : List Char, i.all Char.isDigit = true → f.all Char.isDigit = true →
      f.length ≤ 6 → cfg.amount = some (String.mk (i ++ '.' :: f)) →
      auth.value =
        ((digitsToNat i * 10 ^ 6 + digitsToNat f * 10 ^ (6 - f.length) : Nat) : Int)) ∧
    (cfg.amount = some "0.01" → auth.value = 10000) := by
  obtain ⟨h1, h2, h3, h4, v, hp, hauth⟩ := (signPermit_ok_iff env cfg auth).mp h
  subst hauth
  have hfrom : env.connectedAddress = some (env.connectedAddress.getD "") := by
    cases hca : env.connectedAddress with
    | none => rw [hca] at h1; simp [jsTruthy] at h1
    | some s => simp
  have hval : ∀ i f : List Char, i.all Char.isDigit = true → f.all Char.isDigit = true →
      f.length ≤ 6 → cfg.amount = some (String.mk (i ++ '.' :: f)) →
      v = ((digitsToNat i * 10 ^ 6 + digitsToNat f * 10 ^ (6 - f.length) : Nat) : Int) := by
    intro i f hi hf hlen ham
    rw [ham] at hp
    simp only [Option.getD_some] at hp
    rw [parseUnits_exact i f hi hf hlen] at hp
    injection hp with hv
    exact hv.symm
  refine ⟨hfrom, hp, hval, ?_⟩
  intro h001
  have h1' := hval ['0'] ['0', '1'] (by decide) (by decide) (by decide)
    (by rw [h001]; rfl)
  show v = 10000
  rw [h1']
  decide

/-- C1 witness: a concrete connected wallet on chain 25 signing "0.01"
yields an authorization whose `from` is the wallet and whose value is
10000. -/
theorem signPermit_from_and_value_witness :
    ∃ auth : TransferAuthorization,
      some "0xAb" = some auth.«from» ∧ auth.value = 10000 := by
  have h := signPermit_from_and_value ⟨some "0xAb", 25, 0, List.replicate 24 0⟩
    ⟨some "0xCd", some "0.01", none⟩
    { «from» := "0xAb", «to» := "0xCd", value := 10000, validAfter := 0
      validBefore := 3600
      nonce := "0x0000000000000000000000000000000000000000000000000000000000000000" }
    (by decide)
  exact ⟨_, h.1, h.2.2.2 rfl⟩

/-- C3 counterexample: a signing at wall-clock second 7200 with the
default window yields `validAfter = 0` and
`validBefore - validAfter = 10800 ≠ 3600`: the difference is `now` plus
the window, not the window. -/
theorem signPermit_window_counterexample :
    Except.map (fun a : TransferAuthorization => (a.validAfter, a.validBefore - a.validAfter))
      (signPermit ⟨some "0xAb", 25, 7200000, List.replicate 24 0⟩
        ⟨some "0xCd", some "0.01", none⟩) = Except.ok ((0 : Nat), (10800 : Nat)) ∧
    (10800 : Nat) ≠ 3600 := by
  exact ⟨by decide, by decide⟩

/-- C3 (amended): every authorization produced by `signPermit` has
`validAfter = 0` and `validBefore = now + validityWindow` (equivalently
`validBefore - now` equals the requested window), the window defaulting to
3600 seconds when unspecified. -/
theorem signPermit_validity_window (env : PermitEnv) (cfg : PermitConfig)
    (auth : TransferAuthorization) (h : signPermit env cfg = .ok auth) :
    auth.validAfter = 0 ∧
    auth.validBefore = env.nowMs / 1000 + cfg.validityWindow.getD 3600 := by
  obtain ⟨_, _, _, _, v, _, hauth⟩ := (signPermit_ok_iff env cfg auth).mp h
  subst hauth
  exact ⟨rfl, rfl⟩

/-- C3 witness: concrete run with unspecified window: `validAfter = 0`,
`validBefore = 0 / 1000 + 3600`. -/
theorem signPermit_validity_window_witness :
    ∃ auth : TransferAuthorization, auth.validAfter = 0 ∧ auth.validBefore = 3600 := by
  exact ⟨_, signPermit_validity_window ⟨some "0xAb", 25, 0, List.replicate 24 0⟩
    ⟨some "0xCd", some "0.01", none⟩
    { «from» := "0xAb", «to» := "0xCd", value := 10000, validAfter := 0
      validBefore := 3600
      nonce := "0x0000000000000000000000000000000000000000000000000000000000000000" }
    (by decide)⟩

/-- C5 counterexample: the amount "0" is NOT rejected: it passes every
validation (only `!amount` is checked, and "0" is truthy), and `signPermit`
issues the wallet signature request for an authorization of value 0. -/
theorem signPermit_zero_counterexample :
    Except.map TransferAuthorization.value
      (signPermit ⟨some "0xAb", 25, 0, List.replicate 24 0⟩
        ⟨some "0xCd", some "0", none⟩) = Except.ok 0 := by decide

/-- C5 (amended): `signPermit` reports its validation failures — no wallet
connected, missing recipient, missing amount, unsupported network, amount
string `parseUnits` cannot parse — synchronously, before any signature
request (an `.ok` is the authorization handed to the wallet, an `.error`
precedes that); it succeeds exactly when those checks pass, and any parsed
value — zero and negative amounts included — is accepted as the value of
the authorization. -/
theorem signPermit_validation_boundary (env : PermitEnv) (cfg : PermitConfig) :
    ((signPermit env cfg).isOk = true ↔
      (jsTruthy env.connectedAddress = true ∧ jsTruthy cfg.recipient = true ∧
       jsTruthy cfg.amount = true ∧ (USDC_ADDRESS env.chainId).isSome = true ∧
       (parseUnits (cfg.amount.getD "") 6).isSome = true)) ∧
    (∀ auth, signPermit env cfg = .ok auth →
      parseUnits (cfg.amount.getD "") 6 = some auth.value) := by
  constructor
  · constructor
    · intro hok
      cases hsp : signPermit env cfg with
      | error e =>
        rw [hsp] at hok
        simp [Except.isOk, Except.toBool] at hok
      | ok auth =>
        obtain ⟨h1, h2, h3, h4, v, hp, _⟩ := (signPermit_ok_iff env cfg auth).mp hsp
        refine ⟨h1, h2, h3, ?_, ?_⟩
        · cases hu : USDC_ADDRESS env.chainId with
          | none => rw [hu] at h4; simp at h4
          | some a => rfl
        · rw [hp]
          rfl
    · intro ⟨h1, h2, h3, h4, h5⟩
      obtain ⟨v, hp⟩ := Option.isSome_iff_exists.mp h5
      have h4' : (USDC_ADDRESS env.chainId).isNone = false := by
        cases hu : USDC_ADDRESS env.chainId with
        | none => rw [hu] at h4; simp at h4
        | some a => rfl
      have := (signPermit_ok_iff env cfg _).mpr ⟨h1, h2, h3, h4', v, hp, rfl⟩
      rw [this]
      rfl
  · intro auth h
    obtain ⟨_, _, _, _, v, hp, hauth⟩ := (signPermit_ok_iff env cfg auth).mp h
    subst hauth
    exact hp

/-- C5 witness: applying the validation characterization at the accepted
zero-amount run: the parsed value 0 becomes the authorization value. -/
theorem signPermit_validation_boundary_witness :
    parseUnits "0" 6 = some 0 :=
  (signPermit_validation_boundary ⟨some "0xAb", 25, 0, List.replicate 24 0⟩
    ⟨some "0xCd", some "0", none⟩).2
    { «from» := "0xAb", «to» := "0xCd", value := 0, validAfter := 0
      validBefore := 3600
      nonce := "0x0000000000000000000000000000000000000000000000000000000000000000" }
    (by decide)

/-- C6: every nonce produced by `generateNonce` (timestamp below 2^64,
24 random byte values) is `0x` followed by 64 hex characters — 32 bytes —
whose first 16 hex digits decode big-endian to the millisecond timestamp
and whose remaining 48 hex digits are exactly the 24 random bytes. -/
theorem generateNonce_layout (tsMs : Nat) (r : List Nat)
    (hts : tsMs < 2 ^ 64) (hr : r.length = 24) (hb : ∀ b ∈ r, b < 256) :
    ∃ hs : List Char,
      (generateNonce tsMs r).data = '0' :: 'x' :: hs ∧
      hs.length = 64 ∧
      hs.all isHexDigit = true ∧
      hexDigitsToNat (hs.take 16) = tsMs ∧
      hexPairsToBytes (hs.drop 16) = r := by
  refine ⟨padStart (natToHex tsMs) 16 '0' ++ (r.map byteToHex2).flatten, rfl, ?_, ?_, ?_, ?_⟩
  · rw [List.length_append, padStart_hex_length tsMs hts,
      map_flatten_byteToHex2_length r hb, hr]
  · rw [List.all_append, padStart_hex_all tsMs, map_flatten_byteToHex2_all_hex r hb]
    rfl
  · rw [List.take_left' (padStart_hex_length tsMs hts), padStart_hex_val tsMs]
  · rw [List.drop_left' (padStart_hex_length tsMs hts), hexPairsToBytes_map_flatten r hb]

/-- C6 witness: concrete nonce for timestamp 1700000000000 and 24 random
bytes of value 171. -/
theorem generateNonce_layout_witness :
    ∃ hs : List Char,
      (generateNonce 1700000000000 (List.replicate 24 171)).data = '0' :: 'x' :: hs ∧
      hs.length = 64 ∧
      hs.all isHexDigit = true ∧
      hexDigitsToNat (hs.take 16) = 1700000000000 ∧
      hexPairsToBytes (hs.drop 16) = List.replicate 24 171 :=
  generateNonce_layout 1700000000000 (List.replicate 24 171) (by norm_num) (by decide)
    (fun b hb => by rw [List.eq_of_mem_replicate hb]; omega)

/-! ## Claim theorems: payment service -/

/-- A JSON value with a found field is an object. -/
theorem jsonField_some_obj {j : Json} {k : String} {v : Json}
    (h : jsonField j k = some v) : ∃ fields, j = .obj fields := by
  cases j with
  | obj fields => exact ⟨fields, rfl⟩
  | null => simp [jsonField] at h
  | bool b => simp [jsonField] at h
  | num n => simp [jsonField] at h
  | str s => simp [jsonField] at h
  | arr l => simp [jsonField] at h

/-- C4 counterexample: a 500 response whose body is not parseable JSON
yields `error = "Unknown error"` (the `.catch` default survives the `||`),
not the claimed `"HTTP 500"` fallback. -/
theorem submitUsdcPayment_unparseable_counterexample :
    (submitUsdcPaymentHttpError 500 none "m").error = some (.str "Unknown error") ∧
    (submitUsdcPaymentHttpError 500 none "m").error ≠ some (.str "HTTP 500") := by
  constructor
  · rfl
  · intro h
    rw [show (submitUsdcPaymentHttpError 500 none "m").error = some (.str "Unknown error")
      from rfl] at h
    simp only [Option.some.injEq, Json.str.injEq] at h
    exact absurd h (by decide)

/-- C4 (amended): on a non-success HTTP status, the error field falls
back to `"HTTP <status>"` exactly when the body parses as JSON other than
null but its `error` field is missing or falsy; a body that is not
parseable JSON yields `"Unknown error"` instead; a body parsing to JSON
null makes the `errorData.error` access throw a TypeError, which the
outer catch turns into the transport-failure result
`error = "Network error"` with the TypeError message as reason; a truthy
parsed `error` field is passed through. -/
theorem submitUsdcPayment_error_fallback (status : Nat) (parsedBody : Option Json)
    (nullMsg : String) :
    (parsedBody = none →
      (submitUsdcPaymentHttpError status parsedBody nullMsg).error =
        some (.str "Unknown error")) ∧
    (parsedBody = some .null →
      (submitUsdcPaymentHttpError status parsedBody nullMsg).error =
        some (.str "Network error") ∧
      (submitUsdcPaymentHttpError status parsedBody nullMsg).reason =
        some (.str nullMsg)) ∧
    (∀ j, parsedBody = some j → j ≠ .null → jsonField j "error" = none →
      (submitUsdcPaymentHttpError status parsedBody nullMsg).error =
        some (.str ("HTTP " ++ toString status))) ∧
    (∀ j v, parsedBody = some j → jsonField j "error" = some v → jsonTruthy v = false →
      (submitUsdcPaymentHttpError status parsedBody nullMsg).error =
        some (.str ("HTTP " ++ toString status))) ∧
    (∀ j v, parsedBody = some j → jsonField j "error" = some v → jsonTruthy v = true →
      (submitUsdcPaymentHttpError status parsedBody nullMsg).error = some v) := by
  refine ⟨?_, ?_, ?_, ?_, ?_⟩
  · intro h
    subst h
    rfl
  · intro h
    subst h
    exact ⟨rfl, rfl⟩
  · intro j h hnull hf
    subst h
    cases j with
    | null => exact absurd rfl hnull
    | bool b => simp [submitUsdcPaymentHttpError, hf]
    | num n => simp [submitUsdcPaymentHttpError, hf]
    | str s => simp [submitUsdcPaymentHttpError, hf]
    | arr l => simp [submitUsdcPaymentHttpError, hf]
    | obj fields => simp [submitUsdcPaymentHttpError, hf]
  · intro j v h hf htr
    subst h
    obtain ⟨fields, rfl⟩ := jsonField_some_obj hf
    simp [submitUsdcPaymentHttpError, hf, htr]
  · intro j v h hf htr
    subst h
    obtain ⟨fields, rfl⟩ := jsonField_some_obj hf
    simp [submitUsdcPaymentHttpError, hf, htr]

/-- C4 witness: a parseable non-null body with no `error` field gets the
`"HTTP 503"` fallback. -/
theorem submitUsdcPayment_error_fallback_witness :
    (submitUsdcPaymentHttpError 503 (some (.obj [])) "m").error =
      some (.str "HTTP 503") :=
  (submitUsdcPayment_error_fallback 503 (some (.obj [])) "m").2.2.1 (.obj []) rfl
    (fun h => Json.noConfusion h) rfl

/-- C10: `completePayment` is total over all behaviors of its `signPermit`
callback and of submission: a rejection of either awaited call — a
user-declined signature included — is caught and returned as
`{success := false, error := "Payment failed", reason := <message>}` (the
generic tag, not a distinguished decline result), and a fulfilled
submission result is returned as-is. -/
theorem completePayment_total (signResult : JsOutcome SignedTransferAuthorization)
    (submitResult : SignedTransferAuthorization → JsOutcome PaymentSubmissionResult) :
    (∀ isErr msg, signResult = .thrown isErr msg →
      completePayment signResult submitResult =
        { success := false
          error := some (.str "Payment failed")
          reason := some (.str (thrownMessage isErr msg)) }) ∧
    (∀ signed isErr msg, signResult = .ok signed → submitResult signed = .thrown isErr msg →
      completePayment signResult submitResult =
        { success := false
          error := some (.str "Payment failed")
          reason := some (.str (thrownMessage isErr msg)) }) ∧
    (∀ signed r, signResult = .ok signed → submitResult signed = .ok r →
      completePayment signResult submitResult = r) := by
  refine ⟨?_, ?_, ?_⟩
  · intro isErr msg h
    subst h
    rfl
  · intro signed isErr msg h hsub
    subst h
    simp [completePayment, hsub]
  · intro signed r h hsub
    subst h
    simp [completePayment, hsub]

/-- C10 witness: a user-declined signature (a thrown Error carrying the
decline message of the wallet) collapses into the generic tagged
failure. -/
theorem completePayment_total_witness :
    completePayment (JsOutcome.thrown true "User rejected the request")
        (fun _ => .ok { success := true }) =
      { success := false
        error := some (.str "Payment failed")
        reason := some (.str "User rejected the request") } := by
  have h := (completePayment_total (.thrown true "User rejected the request")
    (fun _ => .ok { success := true })).1 true "User rejected the request" rfl
  simpa [thrownMessage] using h

end Cronos402
